import Mathlib

/-!
Shallow embedding of the NLPP line-oriented preprocessor (`NLPP.py`).

Lines are modelled as `List Char` (Python 2 byte strings).  Each helper of
the source is embedded under its source name; the per-line body of the
`processFile` loop is embedded as `step`, and the loop itself as
`processFile` (explicit state passing, error via `Except`).
-/

set_option maxRecDepth 4000

/-- Python's `str.strip` whitespace set for ASCII strings: space, tab,
linefeed, vertical tab, form feed, carriage return. -/
def pyIsSpace (c : Char) : Bool :=
  c == ' ' || c == '\t' || c == '\n' || c == '\x0b' || c == '\x0c' || c == '\r'

/-- Python `s.strip()`: remove leading and trailing whitespace. -/
def pyStrip (l : List Char) : List Char :=
  (l.dropWhile pyIsSpace).rdropWhile pyIsSpace

/-- Python `s.find(c)` restricted to a single character: index of the first
occurrence, `none` when absent (Python returns `-1`). -/
def pyFindAux (c : Char) : List Char → Option Nat
  | [] => none
  | x :: xs => if x = c then some 0 else (pyFindAux c xs).map (· + 1)

/-- `hasDelim(s)`: check if `s` has the delimiter `;; $@` (source line 10-12). -/
def hasDelim (s : List Char) : Bool :=
  ";; $@".toList.isPrefixOf (pyStrip s)

/-- `getDelimName(s)`: the name of this delimiter, `s.strip()[5:]`
(source line 14-16). -/
def getDelimName (s : List Char) : List Char :=
  (pyStrip s).drop 5

/-- A config value is either a raw string (flag `VERSION`) or a boolean
(every other flag), as stored by `getConfigTuple`. -/
inductive ConfigVal
  | str (s : List Char)
  | bool (b : Bool)
deriving DecidableEq, Repr

/-- Python truthiness of a stored config value, as used by
`if ( config[name] ):` — a boolean is itself, a string is truthy iff
nonempty. -/
def ConfigVal.truthy : ConfigVal → Bool
  | .str s => !s.isEmpty
  | .bool b => b

/-- `getConfigTuple(s)`: `name, space, value = s.strip()[5:].partition(" ")`;
when the name is not `VERSION`, the stored value is `value == "TRUE"`
(source line 18-23). -/
def getConfigTuple (s : List Char) : List Char × ConfigVal :=
  let body := (pyStrip s).drop 5
  let name := body.takeWhile (· ≠ ' ')
  let value := (body.dropWhile (· ≠ ' ')).drop 1
  if name = "VERSION".toList then (name, .str value)
  else (name, .bool (value == "TRUE".toList))

/-- `endOfCode(s)`: `s.startswith("@#$#@#$#@")` (source line 25-27). -/
def endOfCode (s : List Char) : Bool :=
  "@#$#@#$#@".toList.isPrefixOf s

/-- `commentCode(line)` (source line 29-35): a line whose stripped form
starts with `;` but not `;;` is returned unchanged, any other line gets the
prefix `"; "`. -/
def commentCode (line : List Char) : List Char :=
  if (pyStrip line).take 1 = [';'] ∧ ((pyStrip line).drop 1).take 1 ≠ [';'] then
    line
  else
    "; ".toList ++ line

/-- `uncommentCode(line)` (source line 37-43): a line whose stripped form
starts with `;;` or does not start with `;` is returned unchanged; otherwise
`semiPos = line.find(";")` and the result is
`line[0:semiPos] + line[semiPos + 1:]`.  The `none` branch mirrors Python's
`find` returning `-1` (then `line[0:-1] + line[0:]`); it is unreachable
under the guard. -/
def uncommentCode (line : List Char) : List Char :=
  if (pyStrip line).take 2 = [';', ';'] ∨ (pyStrip line).take 1 ≠ [';'] then
    line
  else
    match pyFindAux ';' line with
    | some i => line.take i ++ line.drop (i + 1)
    | none => line.take (line.length - 1) ++ line

/-- The five states of `processFile` (source line 56-60). -/
inductive PState
  | NORMAL
  | CONFIG
  | COMMENT
  | UNCOMMENT
  | ENDOFCODE
deriving DecidableEq, Repr

/-- The config dictionary: an association list where the most recent
binding for a key shadows older ones (Python `dict` assignment). -/
abbrev Config := List (List Char × ConfigVal)

deriving instance DecidableEq for Except

/-- `config[name] = value`. -/
def Config.set (c : Config) (k : List Char) (v : ConfigVal) : Config :=
  (k, v) :: c

/-- Lookup: `config[name]` / `name in config`. -/
def Config.get? (c : Config) (k : List Char) : Option ConfigVal :=
  (List.find? (fun p => p.1 == k) c).map (·.2)

/-- The error message raised on a directive inside a COMMENT/UNCOMMENT
block (source line 102 and 109). -/
def tagErrMsg : List Char := "***Unexpected preprocessor tag found".toList

/-- The body of the `processFile` loop for one line (source line 67-111):
given the current state and config and the input line, produce either a
`ProcessingError` message or the next state, next config and the output
line written for this line. -/
def step (state : PState) (config : Config) (line : List Char) :
    Except (List Char) (PState × Config × List Char) :=
  if endOfCode line then
    .ok (.ENDOFCODE, config, line)
  else if hasDelim line ∧ getDelimName line = "END".toList then
    .ok (.NORMAL, config, line)
  else if state = .CONFIG then
    let (name, value) := getConfigTuple line
    .ok (.CONFIG, config.set name value, line)
  else if state = .NORMAL ∧ hasDelim line then
    let name := getDelimName line
    if name = "CONFIG".toList then
      .ok (.CONFIG, config, line)
    else
      match config.get? name with
      | some v =>
        if v.truthy then .ok (.UNCOMMENT, config, line)
        else .ok (.COMMENT, config, line)
      | none => .ok (.NORMAL, config, line)
  else if state = .COMMENT then
    if hasDelim line ∧ getDelimName line = "END".toList then
      .ok (.NORMAL, config, line)
    else if hasDelim line then
      .error tagErrMsg
    else
      .ok (.COMMENT, config, commentCode line)
  else if state = .UNCOMMENT then
    if hasDelim line ∧ getDelimName line = "END".toList then
      .ok (.NORMAL, config, line)
    else if hasDelim line then
      .error tagErrMsg
    else
      .ok (.UNCOMMENT, config, uncommentCode line)
  else
    .ok (state, config, line)

/-- The full `processFile` loop over a list of input lines: returns the
output lines written (in order) and either the final state and config or
the raised error.  On an error no output is written for the offending line
or any later line. -/
def processFile : PState → Config → List (List Char) →
    List (List Char) × Except (List Char) (PState × Config)
  | st, cfg, [] => ([], .ok (st, cfg))
  | st, cfg, line :: rest =>
    match step st cfg line with
    | .error e => ([], .error e)
    | .ok (st', cfg', out) =>
      let (outs, r) := processFile st' cfg' rest
      (out :: outs, r)

/-! ### Helper lemmas about `pyStrip` -/

theorem pyStrip_sublist (l : List Char) : List.Sublist (pyStrip l) l :=
  (List.rdropWhile_prefix pyIsSpace (l.dropWhile pyIsSpace)).sublist.trans
    (List.dropWhile_suffix pyIsSpace).sublist

theorem mem_of_mem_pyStrip {c : Char} {l : List Char} (h : c ∈ pyStrip l) :
    c ∈ l :=
  (pyStrip_sublist l).mem h

theorem pyStrip_eq_self_parts {v : List Char} (h : pyStrip v = v) :
    v.dropWhile pyIsSpace = v ∧ v.rdropWhile pyIsSpace = v := by
  have h1 : (v.dropWhile pyIsSpace).length ≤ v.length :=
    (List.dropWhile_suffix pyIsSpace).length_le
  have h2 : (pyStrip v).length ≤ (v.dropWhile pyIsSpace).length :=
    (List.rdropWhile_prefix pyIsSpace (v.dropWhile pyIsSpace)).length_le
  rw [h] at h2
  have hd : v.dropWhile pyIsSpace = v :=
    (List.dropWhile_suffix pyIsSpace).eq_of_length (le_antisymm h1 h2)
  refine ⟨hd, ?_⟩
  have h' := h
  rw [pyStrip, hd] at h'
  exact h'

theorem dropWhile_cons_nonspace {c : Char} (l : List Char)
    (hc : pyIsSpace c = false) :
    (c :: l).dropWhile pyIsSpace = c :: l := by
  simp [List.dropWhile_cons, hc]

theorem rdropWhile_append_self {x v : List Char} (hv : v ≠ [])
    (hr : v.rdropWhile pyIsSpace = v) :
    (x ++ v).rdropWhile pyIsSpace = x ++ v := by
  rw [List.rdropWhile_eq_self_iff]
  intro hne
  have hl : ¬ pyIsSpace (v.getLast hv) = true :=
    List.rdropWhile_eq_self_iff.mp hr hv
  rwa [List.getLast_append_of_ne_nil hv]

/-- Shape of the strip of a line beginning `"; "`: it starts with `;`, its
second character (if any) is not `;`, and it does not start with `;;`. -/
theorem pyStrip_semi_space (l : List Char) :
    (pyStrip (';' :: ' ' :: l)).take 1 = [';'] ∧
      ((pyStrip (';' :: ' ' :: l)).drop 1).take 1 ≠ [';'] ∧
      (pyStrip (';' :: ' ' :: l)).take 2 ≠ [';', ';'] := by
  have hstrip : pyStrip (';' :: ' ' :: l) =
      (';' :: ' ' :: l).rdropWhile pyIsSpace := by
    rw [pyStrip, dropWhile_cons_nonspace _ (by decide)]
  obtain ⟨t, ht⟩ := List.rdropWhile_prefix pyIsSpace (';' :: ' ' :: l)
  have hne : (';' :: ' ' :: l).rdropWhile pyIsSpace ≠ [] := by
    intro h0
    exact absurd (List.rdropWhile_eq_nil_iff.mp h0 ';' (by simp)) (by decide)
  rw [hstrip]
  rcases hr : (';' :: ' ' :: l).rdropWhile pyIsSpace with _ | ⟨c1, r1⟩
  · exact absurd hr hne
  · rw [hr] at ht
    rcases r1 with _ | ⟨c2, r2⟩
    · simp only [List.cons_append, List.nil_append] at ht
      obtain ⟨hc1, -⟩ := List.cons.inj ht
      subst hc1
      refine ⟨rfl, by simp, by simp⟩
    · simp only [List.cons_append] at ht
      obtain ⟨hc1, ht'⟩ := List.cons.inj ht
      obtain ⟨hc2, -⟩ := List.cons.inj ht'
      subst hc1; subst hc2
      refine ⟨rfl, by simp, by simp⟩

example : commentCode "x = 1".toList = "; x = 1".toList := by decide
example : commentCode "  ; x = 1".toList = "  ; x = 1".toList := by decide
example : uncommentCode "; x = 1".toList = " x = 1".toList := by decide
example : uncommentCode ";; $@FOO".toList = ";; $@FOO".toList := by decide
example : getDelimName ";; $@ END".toList = " END".toList := by decide
example :
    getConfigTuple ";; $@FOO TRUE".toList = ("FOO".toList, .bool true) := by
  decide
example :
    processFile .NORMAL []
        [";; $@CONFIG".toList, ";; $@FOO TRUE".toList, ";; $@END".toList] =
      ([";; $@CONFIG".toList, ";; $@FOO TRUE".toList, ";; $@END".toList],
        .ok (.NORMAL, [("FOO".toList, .bool true)])) := by
  decide

/-! ### Helper lemmas about `step` -/

theorem step_eoc (st : PState) (cfg : Config) (line : List Char)
    (h : endOfCode line = true) :
    step st cfg line = .ok (.ENDOFCODE, cfg, line) := by
  unfold step
  rw [if_pos h]

theorem step_end (st : PState) (cfg : Config) (line : List Char)
    (h1 : endOfCode line = false) (h2 : hasDelim line = true)
    (h3 : getDelimName line = "END".toList) :
    step st cfg line = .ok (.NORMAL, cfg, line) := by
  unfold step
  rw [if_neg (by simp [h1]), if_pos ⟨h2, h3⟩]

theorem step_config (cfg : Config) (line : List Char)
    (h1 : endOfCode line = false)
    (h2 : ¬(hasDelim line = true ∧ getDelimName line = "END".toList)) :
    step .CONFIG cfg line =
      .ok (.CONFIG, cfg.set (getConfigTuple line).1 (getConfigTuple line).2,
        line) := by
  unfold step
  rw [if_neg (by simp [h1]), if_neg h2, if_pos rfl]

theorem step_endofcode_state (cfg : Config) (line : List Char)
    (h : ¬(hasDelim line = true ∧ getDelimName line = "END".toList)) :
    step .ENDOFCODE cfg line = .ok (.ENDOFCODE, cfg, line) := by
  unfold step
  by_cases h1 : endOfCode line = true
  · rw [if_pos h1]
  · rw [if_neg h1, if_neg h, if_neg (by decide), if_neg (by simp),
      if_neg (by decide), if_neg (by decide)]

theorem step_block_err (st : PState) (cfg : Config) (line : List Char)
    (hst : st = .COMMENT ∨ st = .UNCOMMENT)
    (h1 : endOfCode line = false) (h2 : hasDelim line = true)
    (h3 : getDelimName line ≠ "END".toList) :
    step st cfg line = .error tagErrMsg := by
  have hend : ¬(hasDelim line = true ∧ getDelimName line = "END".toList) :=
    fun h => h3 h.2
  rcases hst with hst | hst <;> subst hst <;> unfold step
  · rw [if_neg (by simp [h1]), if_neg hend, if_neg (by decide),
      if_neg (by simp), if_pos rfl, if_neg hend, if_pos h2]
  · rw [if_neg (by simp [h1]), if_neg hend, if_neg (by decide),
      if_neg (by simp), if_neg (by decide), if_pos rfl, if_neg hend,
      if_pos h2]

theorem step_comment_line (cfg : Config) (line : List Char)
    (h1 : endOfCode line = false) (h2 : hasDelim line = false) :
    step .COMMENT cfg line = .ok (.COMMENT, cfg, commentCode line) := by
  unfold step
  rw [if_neg (by simp [h1]), if_neg (by simp [h2]), if_neg (by decide),
    if_neg (by simp), if_pos rfl, if_neg (by simp [h2]),
    if_neg (by simp [h2])]

theorem step_uncomment_line (cfg : Config) (line : List Char)
    (h1 : endOfCode line = false) (h2 : hasDelim line = false) :
    step .UNCOMMENT cfg line = .ok (.UNCOMMENT, cfg, uncommentCode line) := by
  unfold step
  rw [if_neg (by simp [h1]), if_neg (by simp [h2]), if_neg (by decide),
    if_neg (by simp), if_neg (by decide), if_pos rfl,
    if_neg (by simp [h2]), if_neg (by simp [h2])]

theorem step_normal_no_error (cfg : Config) (line : List Char) (e : List Char)
    (h : step .NORMAL cfg line = .error e) : False := by
  unfold step at h
  by_cases h1 : endOfCode line = true
  · rw [if_pos h1] at h; cases h
  rw [if_neg h1] at h
  by_cases h2 : hasDelim line = true ∧ getDelimName line = "END".toList
  · rw [if_pos h2] at h; cases h
  rw [if_neg h2, if_neg (by decide)] at h
  by_cases h3 : hasDelim line = true
  · rw [if_pos ⟨rfl, h3⟩] at h
    by_cases h4 : getDelimName line = "CONFIG".toList
    · rw [if_pos h4] at h; cases h
    · rw [if_neg h4] at h
      rcases hg : Config.get? cfg (getDelimName line) with _ | v
      · rw [hg] at h; cases h
      · rw [hg] at h
        simp only at h
        by_cases h5 : v.truthy = true
        · rw [if_pos h5] at h; cases h
        · rw [if_neg h5] at h; cases h
  · rw [if_neg (fun hh => h3 hh.2), if_neg (by decide), if_neg (by decide)]
      at h
    cases h

theorem step_err_inv (st : PState) (cfg : Config) (line : List Char)
    (e : List Char) (h : step st cfg line = .error e) :
    e = tagErrMsg ∧ (st = .COMMENT ∨ st = .UNCOMMENT) ∧
      endOfCode line = false ∧ hasDelim line = true ∧
      getDelimName line ≠ "END".toList := by
  by_cases h1 : endOfCode line = true
  · rw [step_eoc st cfg line h1] at h; cases h
  have h1' : endOfCode line = false := by
    simpa using h1
  by_cases h2 : hasDelim line = true ∧ getDelimName line = "END".toList
  · rw [step_end st cfg line h1' h2.1 h2.2] at h; cases h
  cases st with
  | NORMAL => exact absurd h (fun hh => step_normal_no_error cfg line e hh)
  | CONFIG => rw [step_config cfg line h1' h2] at h; cases h
  | ENDOFCODE => rw [step_endofcode_state cfg line h2] at h; cases h
  | COMMENT =>
    by_cases h3 : hasDelim line = true
    · have h4 : getDelimName line ≠ "END".toList := fun hn => h2 ⟨h3, hn⟩
      rw [step_block_err .COMMENT cfg line (Or.inl rfl) h1' h3 h4] at h
      exact ⟨(Except.error.inj h).symm, Or.inl rfl, h1', h3, h4⟩
    · have h3' : hasDelim line = false := by simpa using h3
      rw [step_comment_line cfg line h1' h3'] at h; cases h
  | UNCOMMENT =>
    by_cases h3 : hasDelim line = true
    · have h4 : getDelimName line ≠ "END".toList := fun hn => h2 ⟨h3, hn⟩
      rw [step_block_err .UNCOMMENT cfg line (Or.inr rfl) h1' h3 h4] at h
      exact ⟨(Except.error.inj h).symm, Or.inr rfl, h1', h3, h4⟩
    · have h3' : hasDelim line = false := by simpa using h3
      rw [step_uncomment_line cfg line h1' h3'] at h; cases h

/-! ### Helper lemma about `pyFindAux` -/

theorem pyFindAux_spec (l : List Char) (h : ';' ∈ l) :
    ∃ a b, l = a ++ ';' :: b ∧ ';' ∉ a ∧ pyFindAux ';' l = some a.length := by
  induction l with
  | nil => cases h
  | cons c cs ih =>
    by_cases hc : c = ';'
    · subst hc
      refine ⟨[], cs, rfl, by simp, ?_⟩
      rw [pyFindAux, if_pos rfl]
      rfl
    · have hmem : ';' ∈ cs := by
        rcases List.mem_cons.mp h with h' | h'
        · exact absurd h'.symm hc
        · exact h'
      obtain ⟨a, b, hab, hna, hfind⟩ := ih hmem
      refine ⟨c :: a, b, by rw [List.cons_append, hab], ?_, ?_⟩
      · intro hmm
        rcases List.mem_cons.mp hmm with h' | h'
        · exact hc h'.symm
        · exact hna h'
      · rw [pyFindAux, if_neg hc, hfind]
        rfl

/-! ### Claim theorems -/

/-- C6: `commentCode` returns its input unchanged exactly when the stripped
line's first character is `;` and its second character is not `;` (a
single-semicolon comment); in every other case — including empty or
whitespace-only lines and lines whose stripped form starts with `;;` — it
returns the two-character prefix `"; "` prepended to the original
unstripped line. -/
theorem commentCode_cases (line : List Char) :
    (commentCode line = line ↔
      ((pyStrip line).take 1 = [';'] ∧
        ((pyStrip line).drop 1).take 1 ≠ [';'])) ∧
    (¬((pyStrip line).take 1 = [';'] ∧
        ((pyStrip line).drop 1).take 1 ≠ [';']) →
      commentCode line = ';' :: ' ' :: line) := by
  constructor
  · constructor
    · intro h
      by_contra hc
      rw [commentCode, if_neg hc] at h
      have := congrArg List.length h
      rw [List.length_append] at this
      simp at this
    · intro hc
      rw [commentCode, if_pos hc]
  · intro hc
    rw [commentCode, if_neg hc]
    rfl

theorem commentCode_cases_witness :
    commentCode "  ; x = 1".toList = "  ; x = 1".toList ∧
      commentCode "x".toList = ';' :: ' ' :: "x".toList :=
  ⟨(commentCode_cases "  ; x = 1".toList).1.mpr (by decide),
    (commentCode_cases "x".toList).2 (by decide)⟩

/-- C10: `commentCode` is idempotent — a second application leaves the
result of the first unchanged, because a rewritten line starts with `"; "`,
whose stripped form begins with a single semicolon. -/
theorem commentCode_idem (line : List Char) :
    commentCode (commentCode line) = commentCode line := by
  by_cases hc : (pyStrip line).take 1 = [';'] ∧
      ((pyStrip line).drop 1).take 1 ≠ [';']
  · have h1 : commentCode line = line := by rw [commentCode, if_pos hc]
    rw [h1, h1]
  · have h1 : commentCode line = ';' :: ' ' :: line := by
      rw [commentCode, if_neg hc]
      rfl
    rw [h1]
    have hsh := pyStrip_semi_space line
    rw [commentCode, if_pos ⟨hsh.1, hsh.2.1⟩]

/-- C2 counterexample: the COMMENT/UNCOMMENT transforms do not round-trip.
For the plain line `x` (not a directive, not the sentinel, first
non-whitespace character not `;`), commenting gives `; x` but uncommenting
that yields ` x` — a leading space remains, so the original line is not
restored. -/
theorem comment_uncomment_no_roundtrip :
    commentCode "x".toList = "; x".toList ∧
      uncommentCode (commentCode "x".toList) = " x".toList ∧
      uncommentCode (commentCode "x".toList) ≠ "x".toList := by decide

/-- C2 amended: for a line `L` that is not a directive, not the sentinel,
and whose first non-whitespace character is not `;`, `commentCode L` is
`"; " + L`, and `uncommentCode` applied to that result removes only the
semicolon, yielding `" " + L` (one extra leading space), not `L`. -/
theorem comment_uncomment_roundtrip (L : List Char)
    (_hd : hasDelim L = false) (_he : endOfCode L = false)
    (hs : (pyStrip L).take 1 ≠ [';']) :
    commentCode L = ';' :: ' ' :: L ∧
      uncommentCode (';' :: ' ' :: L) = ' ' :: L := by
  have hsh := pyStrip_semi_space L
  constructor
  · rw [commentCode, if_neg (fun hcc => hs hcc.1)]
    rfl
  · rw [uncommentCode, if_neg (not_or.mpr ⟨hsh.2.2, not_not_intro hsh.1⟩)]
    have hf : pyFindAux ';' (';' :: ' ' :: L) = some 0 := by
      rw [pyFindAux, if_pos rfl]
    rw [hf]
    rfl

theorem comment_uncomment_roundtrip_witness :
    commentCode "x".toList = ';' :: ' ' :: "x".toList ∧
      uncommentCode (';' :: ' ' :: "x".toList) = ' ' :: "x".toList :=
  comment_uncomment_roundtrip "x".toList (by decide) (by decide) (by decide)

/-- C7: `uncommentCode` returns its input unchanged exactly when the
stripped line starts with `;;` or does not start with `;` at all; otherwise
it removes precisely the first occurrence of `;` from the original line,
preserving every other character in order. -/
theorem uncommentCode_cases (line : List Char) :
    (uncommentCode line = line ↔
      ((pyStrip line).take 2 = [';', ';'] ∨ (pyStrip line).take 1 ≠ [';'])) ∧
    (¬((pyStrip line).take 2 = [';', ';'] ∨ (pyStrip line).take 1 ≠ [';']) →
      ∃ a b, line = a ++ ';' :: b ∧ ';' ∉ a ∧ uncommentCode line = a ++ b) := by
  have key : ∀ _ : ¬((pyStrip line).take 2 = [';', ';'] ∨
      (pyStrip line).take 1 ≠ [';']),
      ∃ a b, line = a ++ ';' :: b ∧ ';' ∉ a ∧ uncommentCode line = a ++ b := by
    intro hc
    have hc1 : (pyStrip line).take 1 = [';'] := not_not.mp (not_or.mp hc).2
    have hmem : ';' ∈ line := by
      apply mem_of_mem_pyStrip
      have hm1 : ';' ∈ (pyStrip line).take 1 := by
        rw [hc1]
        exact List.mem_singleton_self ';'
      exact List.mem_of_mem_take hm1
    obtain ⟨a, b, hab, hna, hfind⟩ := pyFindAux_spec line hmem
    refine ⟨a, b, hab, hna, ?_⟩
    rw [uncommentCode, if_neg hc, hfind]
    simp only
    rw [hab, List.take_left' rfl]
    have hdrop : (a ++ ';' :: b).drop (a.length + 1) = b := by
      rw [← List.drop_drop, List.drop_left' rfl]
      rfl
    rw [hdrop]
  refine ⟨⟨?_, ?_⟩, key⟩
  · intro h
    by_contra hc
    obtain ⟨a, b, hab, hna, hu⟩ := key hc
    rw [hu, hab] at h
    have := congrArg List.length h
    simp [List.length_append] at this
  · intro hc
    rw [uncommentCode, if_pos hc]

theorem uncommentCode_cases_witness :
    uncommentCode ";; x".toList = ";; x".toList ∧
      ∃ a b, "  ; b".toList = a ++ ';' :: b ∧ ';' ∉ a ∧
        uncommentCode "  ; b".toList = a ++ b :=
  ⟨(uncommentCode_cases ";; x".toList).1.mpr (by decide),
    (uncommentCode_cases "  ; b".toList).2 (by decide)⟩

/-- C1 counterexample: END_OF_CODE is not terminal.  In this run the
sentinel on line 4 moves the state to END_OF_CODE, but the `;; $@END`
directive on line 5 (checked before the state dispatch) resets the state to
NORMAL, line 6 re-enters COMMENT via flag `FOO` (declared falsy), and the
subsequent line `x` is emitted changed, as `; x`. -/
theorem endofcode_not_terminal :
    processFile .NORMAL []
        [";; $@CONFIG".toList, ";; $@FOO X".toList, ";; $@END".toList,
          "@#$#@#$#@".toList, ";; $@END".toList, ";; $@FOO".toList,
          "x".toList] =
      ([";; $@CONFIG".toList, ";; $@FOO X".toList, ";; $@END".toList,
          "@#$#@#$#@".toList, ";; $@END".toList, ";; $@FOO".toList,
          "; x".toList],
        .ok (.COMMENT, [("FOO".toList, ConfigVal.bool false)])) ∧
      "; x".toList ≠ "x".toList := by decide

/-- C1 amended: in state END_OF_CODE every line is emitted unchanged, and
the state stays END_OF_CODE unless the line is a directive named `END`
(that check precedes the state dispatch), in which case the state is reset
to NORMAL — so END_OF_CODE is not a terminal state. -/
theorem endofcode_state_behaviour (cfg : Config) (line : List Char) :
    (¬(hasDelim line = true ∧ getDelimName line = "END".toList) →
        step .ENDOFCODE cfg line = .ok (.ENDOFCODE, cfg, line)) ∧
    (endOfCode line = false → hasDelim line = true →
        getDelimName line = "END".toList →
        step .ENDOFCODE cfg line = .ok (.NORMAL, cfg, line)) :=
  ⟨fun h => step_endofcode_state cfg line h,
    fun h1 h2 h3 => step_end .ENDOFCODE cfg line h1 h2 h3⟩

theorem endofcode_state_behaviour_witness :
    step .ENDOFCODE [] "abc".toList = .ok (.ENDOFCODE, [], "abc".toList) ∧
      step .ENDOFCODE [] ";; $@END".toList =
        .ok (.NORMAL, [], ";; $@END".toList) :=
  ⟨(endofcode_state_behaviour [] "abc".toList).1 (by decide),
    (endofcode_state_behaviour [] ";; $@END".toList).2 (by decide)
      (by decide) (by decide)⟩

/-- C3 counterexample: the error raised on a directive inside a COMMENT
block carries the message `***Unexpected preprocessor tag found` — with a
`***` prefix — which differs from the claimed message
`Unexpected preprocessor tag found`. -/
theorem tag_error_message_has_stars :
    step .COMMENT [] ";; $@UNKNOWN".toList =
        .error "***Unexpected preprocessor tag found".toList ∧
      "***Unexpected preprocessor tag found".toList ≠
        "Unexpected preprocessor tag found".toList := by decide

/-- C3 amended: a directive line (name not `END`, not the sentinel) seen in
COMMENT or UNCOMMENT state raises a processing error carrying the message
`***Unexpected preprocessor tag found`; this is the sole failure mode of
line processing; and on the error the run halts, producing no output for
the offending line or any later line. -/
theorem unexpected_tag_spec :
    (∀ (st : PState) (cfg : Config) (line : List Char),
        (st = .COMMENT ∨ st = .UNCOMMENT) → endOfCode line = false →
        hasDelim line = true → getDelimName line ≠ "END".toList →
        step st cfg line = .error tagErrMsg) ∧
    (∀ (st : PState) (cfg : Config) (line e : List Char),
        step st cfg line = .error e →
        e = tagErrMsg ∧ (st = .COMMENT ∨ st = .UNCOMMENT) ∧
          hasDelim line = true ∧ getDelimName line ≠ "END".toList) ∧
    (∀ (st : PState) (cfg : Config) (line : List Char)
        (rest : List (List Char)) (e : List Char),
        step st cfg line = .error e →
        processFile st cfg (line :: rest) = ([], .error e)) := by
  refine ⟨step_block_err, ?_, ?_⟩
  · intro st cfg line e h
    obtain ⟨he, hst, -, hd, hn⟩ := step_err_inv st cfg line e h
    exact ⟨he, hst, hd, hn⟩
  · intro st cfg line rest e h
    simp only [processFile, h]

theorem unexpected_tag_spec_witness :
    step .UNCOMMENT [] ";; $@X".toList = .error tagErrMsg ∧
      ("***Unexpected preprocessor tag found".toList = tagErrMsg ∧
        ((PState.COMMENT : PState) = .COMMENT ∨
          (PState.COMMENT : PState) = .UNCOMMENT) ∧
        hasDelim ";; $@X".toList = true ∧
        getDelimName ";; $@X".toList ≠ "END".toList) ∧
      processFile .COMMENT [] [";; $@X".toList, "y".toList] =
        ([], .error tagErrMsg) :=
  ⟨unexpected_tag_spec.1 .UNCOMMENT [] ";; $@X".toList (Or.inr rfl)
      (by decide) (by decide) (by decide),
    unexpected_tag_spec.2.1 .COMMENT [] ";; $@X".toList
      "***Unexpected preprocessor tag found".toList (by decide),
    unexpected_tag_spec.2.2 .COMMENT [] ";; $@X".toList ["y".toList]
      tagErrMsg (by decide)⟩

/-- C4 counterexample: the delimiter name keeps any whitespace that follows
the 5-character marker — `getDelimName` is the stripped line minus its
first 5 characters, with no further trimming — so the line `;; $@ END` has
name ` END`, is not recognized as the END directive, and inside a COMMENT
block it raises the unexpected-tag error instead of closing the block. -/
theorem delim_name_space_counterexample :
    getDelimName ";; $@ END".toList = " END".toList ∧
      getDelimName ";; $@ END".toList ≠ "END".toList ∧
      step .COMMENT [] ";; $@ END".toList = .error tagErrMsg := by decide

/-- C4 amended: the name of a directive is everything after the marker in
the stripped line, with leading whitespace retained (no trimming after the
marker); in particular `;; $@ END` has name ` END` and is not recognized
as the END directive (in a COMMENT block it raises the tag error). -/
theorem getDelimName_spec :
    (∀ s rest : List Char, pyStrip s = ";; $@".toList ++ rest →
        getDelimName s = rest) ∧
      getDelimName ";; $@ END".toList = ' ' :: "END".toList ∧
      step .COMMENT [] ";; $@ END".toList = .error tagErrMsg := by
  refine ⟨?_, by decide, by decide⟩
  intro s rest h
  rw [getDelimName, h]
  rfl

theorem getDelimName_spec_witness :
    getDelimName ";; $@FOO".toList = "FOO".toList :=
  getDelimName_spec.1 ";; $@FOO".toList "FOO".toList (by decide)

theorem processFile_cons_err (st : PState) (cfg : Config) (line : List Char)
    (rest : List (List Char)) (e : List Char)
    (h : step st cfg line = .error e) :
    processFile st cfg (line :: rest) = ([], .error e) := by
  rw [processFile, h]

theorem processFile_cons_ok (st : PState) (cfg : Config) (line : List Char)
    (rest : List (List Char)) (st' : PState) (cfg' : Config)
    (out : List Char) (h : step st cfg line = .ok (st', cfg', out)) :
    processFile st cfg (line :: rest) =
      (out :: (processFile st' cfg' rest).1,
        (processFile st' cfg' rest).2) := by
  rw [processFile, h]

/-- C8: when no processing error is raised, `processFile` writes exactly
one output line per input line — the output list has the same length as
the input list, produced in input order, none dropped or duplicated. -/
theorem processFile_one_output_per_line (st : PState) (cfg : Config)
    (lines : List (List Char)) (p : PState × Config)
    (h : (processFile st cfg lines).2 = .ok p) :
    (processFile st cfg lines).1.length = lines.length := by
  induction lines generalizing st cfg p with
  | nil => rfl
  | cons line rest ih =>
    rcases hs : step st cfg line with e | ⟨st', cfg', out⟩
    · rw [processFile_cons_err st cfg line rest e hs] at h
      cases h
    · rw [processFile_cons_ok st cfg line rest st' cfg' out hs] at h ⊢
      simp only [List.length_cons]
      rw [ih st' cfg' p h]

theorem processFile_one_output_per_line_witness :
    (processFile .NORMAL [] ["x".toList, "y".toList]).1.length =
      ["x".toList, "y".toList].length :=
  processFile_one_output_per_line .NORMAL [] ["x".toList, "y".toList]
    (.NORMAL, []) (by decide)

theorem takeWhile_no_space (body : List Char) (h : ' ' ∉ body) :
    body.takeWhile (· ≠ ' ') = body ∧ body.dropWhile (· ≠ ' ') = [] := by
  constructor
  · rw [List.takeWhile_eq_self_iff]
    intro x hx
    exact decide_eq_true (fun hxe => h (hxe ▸ hx))
  · rw [List.dropWhile_eq_nil_iff]
    intro x hx
    exact decide_eq_true (fun hxe => h (hxe ▸ hx))

/-- C9: a line consumed in CONFIG state whose stripped form, after dropping
the first 5 characters, contains no space yields an empty raw value: the
whole body is the flag name and it is stored mapped to boolean false (or
to the empty string when the name is `VERSION`). -/
theorem config_entry_no_space (line : List Char) (cfg : Config)
    (h : ' ' ∉ (pyStrip line).drop 5)
    (h1 : endOfCode line = false)
    (h2 : ¬(hasDelim line = true ∧ getDelimName line = "END".toList)) :
    getConfigTuple line =
      ((pyStrip line).drop 5,
        if (pyStrip line).drop 5 = "VERSION".toList then ConfigVal.str []
        else ConfigVal.bool false) ∧
      step .CONFIG cfg line =
        .ok (.CONFIG,
          cfg.set ((pyStrip line).drop 5)
            (if (pyStrip line).drop 5 = "VERSION".toList then ConfigVal.str []
              else ConfigVal.bool false), line) := by
  obtain ⟨ht, hd2⟩ := takeWhile_no_space ((pyStrip line).drop 5) h
  have hct : getConfigTuple line =
      ((pyStrip line).drop 5,
        if (pyStrip line).drop 5 = "VERSION".toList then ConfigVal.str []
        else ConfigVal.bool false) := by
    rw [getConfigTuple]
    simp only [ht, hd2]
    by_cases hb : (pyStrip line).drop 5 = "VERSION".toList
    · rw [if_pos hb, if_pos hb]
      rfl
    · rw [if_neg hb, if_neg hb]
      rfl
  refine ⟨hct, ?_⟩
  rw [step_config cfg line h1 h2, hct]

theorem config_entry_no_space_witness :
    getConfigTuple ";; $@FOO".toList = ("FOO".toList, ConfigVal.bool false) ∧
      step .CONFIG [] ";; $@FOO".toList =
        .ok (.CONFIG, Config.set [] "FOO".toList (ConfigVal.bool false),
          ";; $@FOO".toList) := by
  have h := config_entry_no_space ";; $@FOO".toList [] (by decide) (by decide)
    (by decide)
  exact ⟨h.1.trans (by decide), h.2.trans (by decide)⟩

/-- C5: a config-entry line is split after the marker on the first space
into (flag name, raw value); flag `VERSION` stores the raw string, every
other flag stores the boolean (raw value == `TRUE`).  The sequence
`;; $@CONFIG`, `;; $@FOO TRUE`, `;; $@END` leaves the mapping with FOO
bound to true; replacing `TRUE` by any other (whitespace-free) token leaves
FOO bound to false. -/
theorem config_flag_semantics :
    (processFile .NORMAL []
        [";; $@CONFIG".toList, ";; $@FOO TRUE".toList, ";; $@END".toList] =
      ([";; $@CONFIG".toList, ";; $@FOO TRUE".toList, ";; $@END".toList],
        .ok (.NORMAL, [("FOO".toList, ConfigVal.bool true)]))) ∧
    (processFile .NORMAL []
        [";; $@CONFIG".toList, ";; $@VERSION 1.2".toList,
          ";; $@END".toList] =
      ([";; $@CONFIG".toList, ";; $@VERSION 1.2".toList, ";; $@END".toList],
        .ok (.NORMAL, [("VERSION".toList, ConfigVal.str "1.2".toList)]))) ∧
    (∀ v : List Char, pyStrip v = v → v ≠ "TRUE".toList →
      processFile .NORMAL []
          [";; $@CONFIG".toList, ";; $@FOO ".toList ++ v,
            ";; $@END".toList] =
        ([";; $@CONFIG".toList, ";; $@FOO ".toList ++ v,
            ";; $@END".toList],
          .ok (.NORMAL, [("FOO".toList, ConfigVal.bool false)]))) := by
  refine ⟨by decide, by decide, ?_⟩
  intro v hv hvt
  by_cases hve : v = []
  · subst hve
    decide
  · have hds : (";; $@FOO ".toList ++ v).dropWhile pyIsSpace =
        ";; $@FOO ".toList ++ v :=
      dropWhile_cons_nonspace ("; $@FOO ".toList ++ v) (by decide)
    have hrd : (";; $@FOO ".toList ++ v).rdropWhile pyIsSpace =
        ";; $@FOO ".toList ++ v :=
      rdropWhile_append_self hve (pyStrip_eq_self_parts hv).2
    have hstrip : pyStrip (";; $@FOO ".toList ++ v) =
        ";; $@FOO ".toList ++ v := by
      rw [pyStrip, hds, hrd]
    have hname : getDelimName (";; $@FOO ".toList ++ v) =
        "FOO ".toList ++ v := by
      rw [getDelimName, hstrip]
      rfl
    have hnotend : ¬(hasDelim (";; $@FOO ".toList ++ v) = true ∧
        getDelimName (";; $@FOO ".toList ++ v) = "END".toList) := by
      rintro ⟨-, hE⟩
      rw [hname, show "FOO ".toList ++ v = 'F' :: ("OO ".toList ++ v)
        from rfl, show "END".toList = 'E' :: "ND".toList from rfl] at hE
      injection hE with hE1 hE2
      exact absurd hE1 (by decide)
    have heoc : endOfCode (";; $@FOO ".toList ++ v) = false := rfl
    have hct : getConfigTuple (";; $@FOO ".toList ++ v) =
        ("FOO".toList, ConfigVal.bool (v == "TRUE".toList)) := by
      rw [getConfigTuple, hstrip]
      rfl
    have hb : (v == "TRUE".toList) = false := beq_eq_false_iff_ne.mpr hvt
    have hstep1 : step .NORMAL [] ";; $@CONFIG".toList =
        .ok (.CONFIG, [], ";; $@CONFIG".toList) := by decide
    have hstep2 : step .CONFIG [] (";; $@FOO ".toList ++ v) =
        .ok (.CONFIG, [("FOO".toList, ConfigVal.bool false)],
          ";; $@FOO ".toList ++ v) := by
      rw [step_config [] (";; $@FOO ".toList ++ v) heoc hnotend, hct, hb]
      rfl
    have hstep3 : step .CONFIG [("FOO".toList, ConfigVal.bool false)]
        ";; $@END".toList =
        .ok (.NORMAL, [("FOO".toList, ConfigVal.bool false)],
          ";; $@END".toList) := by decide
    rw [processFile_cons_ok _ _ _ _ _ _ _ hstep1,
      processFile_cons_ok _ _ _ _ _ _ _ hstep2,
      processFile_cons_ok _ _ _ _ _ _ _ hstep3]
    rfl

theorem config_flag_semantics_witness :
    processFile .NORMAL []
        [";; $@CONFIG".toList, ";; $@FOO ".toList ++ "FALSE".toList,
          ";; $@END".toList] =
      ([";; $@CONFIG".toList, ";; $@FOO ".toList ++ "FALSE".toList,
          ";; $@END".toList],
        .ok (.NORMAL, [("FOO".toList, ConfigVal.bool false)])) :=
  config_flag_semantics.2.2 "FALSE".toList (by decide) (by decide)
